import Mathlib

/-!
Verification of the incremental diagnostics cache and cross-file aggregation
engine of the `regal` language server (`internal/lsp/cache/cache.go`), together
with the "missing-metadata" aggregate rule exercised by the Rego tests shipped
with the repository.

Go maps guarded by a mutex are embedded as association lists with
lookup/replace/remove operations; the `(value, ok)` return convention of Go map
reads is embedded as `Option`.  The parsed AST module type and the builtin
position type are external to the cache (it never inspects them), so they are
embedded as plain structures carrying an identifying field.
-/

/-- A source location as it appears in a diagnostic: row, column, the offending
text span, and the file it belongs to. -/
structure Location where
  row : Nat
  col : Nat
  text : String
  file : String
deriving DecidableEq, Repr

/-- A reported issue, mirroring the fields of the diagnostics produced by the
missing-metadata rule tests (category, description, level, title, location and
a related-resources documentation link). -/
structure Diagnostic where
  category : String
  description : String
  level : String
  title : String
  location : Location
  relatedRef : String
deriving DecidableEq, Repr

/-- Stand-in for the external parsed AST module (`*ast.Module`); the cache
stores and returns it without ever inspecting it. -/
structure AstModule where
  moduleId : Nat
deriving DecidableEq, Repr

/-- Stand-in for the external `types.BuiltinPosition`; the cache stores and
returns it without ever inspecting it. -/
structure BuiltinPosition where
  builtinName : String
  start : Nat
deriving DecidableEq, Repr

/-- Go map read `m[k]`, returning `some v` when the key is present
(`ok = true`) and `none` otherwise (`ok = false`). -/
def mapGet {α : Type} (k : String) : List (String × α) → Option α
  | [] => none
  | (k₂, v) :: rest => if k₂ = k then some v else mapGet k rest

/-- Go map write `m[k] = v`: replaces the entry for `k` when present, otherwise
adds one. -/
def mapSet {α : Type} (k : String) (v : α) : List (String × α) → List (String × α)
  | [] => [(k, v)]
  | (k₂, w) :: rest => if k₂ = k then (k, v) :: rest else (k₂, w) :: mapSet k v rest

/-- Go map `delete(m, k)`: removes the entry for `k` when present. -/
def mapDel {α : Type} (k : String) (m : List (String × α)) : List (String × α) :=
  m.filter (fun p => p.1 != k)

/-- The cache state: one association list per Go map of `cache.Cache`
(file contents, parsed modules, the three diagnostics maps, and the builtin
position index). -/
structure Cache where
  fileContents : List (String × String)
  modules : List (String × AstModule)
  diagnosticsFile : List (String × List Diagnostic)
  diagnosticsAggregate : List (String × List Diagnostic)
  diagnosticsParseErrors : List (String × List Diagnostic)
  builtinPositionsFile : List (String × List (Nat × List BuiltinPosition))
deriving DecidableEq, Repr

/-- `NewCache`: every map starts empty. -/
def NewCache : Cache :=
  { fileContents := []
    modules := []
    diagnosticsFile := []
    diagnosticsAggregate := []
    diagnosticsParseErrors := []
    builtinPositionsFile := [] }

def Cache.GetFileContents (c : Cache) (uri : String) : Option String :=
  mapGet uri c.fileContents

def Cache.SetFileContents (c : Cache) (uri : String) (content : String) : Cache :=
  { c with fileContents := mapSet uri content c.fileContents }

def Cache.GetModule (c : Cache) (uri : String) : Option AstModule :=
  mapGet uri c.modules

def Cache.SetModule (c : Cache) (uri : String) (m : AstModule) : Cache :=
  { c with modules := mapSet uri m c.modules }

def Cache.GetFileDiagnostics (c : Cache) (uri : String) : Option (List Diagnostic) :=
  mapGet uri c.diagnosticsFile

def Cache.SetFileDiagnostics (c : Cache) (uri : String) (diags : List Diagnostic) : Cache :=
  { c with diagnosticsFile := mapSet uri diags c.diagnosticsFile }

def Cache.ClearFileDiagnostics (c : Cache) : Cache :=
  { c with diagnosticsFile := [] }

def Cache.GetAggregateDiagnostics (c : Cache) (uri : String) : Option (List Diagnostic) :=
  mapGet uri c.diagnosticsAggregate

def Cache.SetAggregateDiagnostics (c : Cache) (uri : String) (diags : List Diagnostic) : Cache :=
  { c with diagnosticsAggregate := mapSet uri diags c.diagnosticsAggregate }

def Cache.ClearAggregateDiagnostics (c : Cache) : Cache :=
  { c with diagnosticsAggregate := [] }

def Cache.GetParseErrors (c : Cache) (uri : String) : Option (List Diagnostic) :=
  mapGet uri c.diagnosticsParseErrors

def Cache.SetParseErrors (c : Cache) (uri : String) (diags : List Diagnostic) : Cache :=
  { c with diagnosticsParseErrors := mapSet uri diags c.diagnosticsParseErrors }

def Cache.GetBuiltinPositions (c : Cache) (uri : String) :
    Option (List (Nat × List BuiltinPosition)) :=
  mapGet uri c.builtinPositionsFile

def Cache.SetBuiltinPositions (c : Cache) (uri : String)
    (positions : List (Nat × List BuiltinPosition)) : Cache :=
  { c with builtinPositionsFile := mapSet uri positions c.builtinPositionsFile }

/-- The clear operations `cache.go` defines on the three diagnostics maps: the
file-local and aggregate maps each have one; the parse-errors map has none. -/
def cacheClearOperations : List String :=
  ["ClearFileDiagnostics", "ClearAggregateDiagnostics"]

/-- `append(acc, diags...)` guarded by the `ok` flag of the map read. -/
def appendIfFound (acc : List Diagnostic) (o : Option (List Diagnostic)) : List Diagnostic :=
  match o with
  | some ds => acc ++ ds
  | none => acc

/-- `GetAllDiagnosticsForURI`: parse errors, when present and non-empty, are
returned alone (early return); otherwise aggregate diagnostics then file-local
diagnostics are appended to an initially empty list, each only when its map
read reports `ok`. -/
def Cache.GetAllDiagnosticsForURI (c : Cache) (uri : String) : List Diagnostic :=
  match c.GetParseErrors uri with
  | some parseDiags =>
    if 0 < parseDiags.length then parseDiags
    else appendIfFound (appendIfFound [] (c.GetAggregateDiagnostics uri)) (c.GetFileDiagnostics uri)
  | none =>
    appendIfFound (appendIfFound [] (c.GetAggregateDiagnostics uri)) (c.GetFileDiagnostics uri)

/-- `Delete` removes all cached data for a given URI, map by map in source
order. -/
def Cache.Delete (c : Cache) (uri : String) : Cache :=
  { fileContents := mapDel uri c.fileContents
    modules := mapDel uri c.modules
    diagnosticsFile := mapDel uri c.diagnosticsFile
    diagnosticsAggregate := mapDel uri c.diagnosticsAggregate
    diagnosticsParseErrors := mapDel uri c.diagnosticsParseErrors
    builtinPositionsFile := mapDel uri c.builtinPositionsFile }

/-- The state visible after the first `k` of the six per-map critical sections
of `Delete` have run (each map has its own mutex; no two are held at once, so a
concurrent reader can run between any two steps).  Steps follow source order:
file contents, modules, file diagnostics, aggregate diagnostics, parse errors,
builtin positions. -/
def Cache.deleteUpTo (c : Cache) (uri : String) (k : Nat) : Cache :=
  { fileContents := if 1 ≤ k then mapDel uri c.fileContents else c.fileContents
    modules := if 2 ≤ k then mapDel uri c.modules else c.modules
    diagnosticsFile := if 3 ≤ k then mapDel uri c.diagnosticsFile else c.diagnosticsFile
    diagnosticsAggregate :=
      if 4 ≤ k then mapDel uri c.diagnosticsAggregate else c.diagnosticsAggregate
    diagnosticsParseErrors :=
      if 5 ≤ k then mapDel uri c.diagnosticsParseErrors else c.diagnosticsParseErrors
    builtinPositionsFile :=
      if 6 ≤ k then mapDel uri c.builtinPositionsFile else c.builtinPositionsFile }

/-- `UpdateCacheForURIFromDisk`: the outcome of `os.ReadFile` is passed in as
an `Except` (the cache performs no I/O of its own).  On a read failure the
cache is left unmodified and the error is propagated; when the bytes read equal
the cached content the cached value is returned and nothing is written;
otherwise the content entry is overwritten and the new content returned. -/
def UpdateCacheForURIFromDisk (c : Cache) (uri : String)
    (diskRead : Except String String) : Cache × Except String String :=
  match diskRead with
  | Except.error e => (c, Except.error ("failed to read file: " ++ e))
  | Except.ok content =>
    match c.GetFileContents uri with
    | some cached =>
      if cached = content then (c, Except.ok cached)
      else (c.SetFileContents uri content, Except.ok content)
    | none => (c.SetFileContents uri content, Except.ok content)

/-- A location inside a contributing file (row, column, offending text); the
file name is supplied separately by the contribution's provenance. -/
structure Loc where
  row : Nat
  col : Nat
  text : String
deriving DecidableEq, Repr

/-- Modelled from the spec: the per-file `AggregateContribution` of the
missing-metadata category (the rule's Rego source is not part of the inspected
tree; only its tests are).  Each file contributes, for the package it defines,
whether the package carries a metadata annotation and where its `package`
keyword sits, and, per rule defined in it, whether that rule carries a
metadata annotation and where its head sits. -/
structure Contribution where
  file : String
  packagePath : List String
  packageAnnotated : Bool
  packageLoc : Loc
  ruleAnnotated : List (String × Bool)
  ruleLocations : List (String × Loc)
deriving DecidableEq, Repr

/-- The documentation link attached to every missing-metadata diagnostic
(`config.docs.resolve_url("$baseUrl/$category/missing-metadata", "custom")`,
an external collaborator, embedded as its resolved value). -/
def missingMetadataDocRef : String :=
  "https://docs.styra.com/regal/rules/custom/missing-metadata"

/-- The diagnostic emitted for an undocumented package or rule, as fixed by the
rule's tests: category `custom`, title `missing-metadata`, level `error`. -/
def missingMetaDiag (f : String) (l : Loc) : Diagnostic :=
  { category := "custom"
    description := "Package or rule missing metadata"
    level := "error"
    title := "missing-metadata"
    location := { row := l.row, col := l.col, text := l.text, file := f }
    relatedRef := missingMetadataDocRef }

/-- Least element of a list of file identifiers (lexicographic order on
strings), used to pick a deterministic representative among contributors. -/
def minFileOf : List String → Option String
  | [] => none
  | f :: fs =>
    match minFileOf fs with
    | none => some f
    | some g => some (min f g)

/-- The contributions whose file defines package `p`. -/
def pkgContributors (cs : List Contribution) (p : List String) : List Contribution :=
  cs.filter (fun c => decide (c.packagePath = p))

/-- Modelled from the spec: a package is documented when any contributing file
shows it annotated (union is OR across contributors). -/
def packageAnnotatedIn (cs : List Contribution) (p : List String) : Bool :=
  cs.any (fun c => decide (c.packagePath = p) && c.packageAnnotated)

/-- The deterministic representative among a set of contributors: the one with
the lexicographically smallest file identifier. -/
def chosenContributor (l : List Contribution) : Option Contribution :=
  (minFileOf (l.map (fun c => c.file))).bind
    (fun f => (l.filter (fun c => decide (c.file = f))).head?)

/-- Modelled from the spec: the package-level judgment of `recompute` for one
package path.  No diagnostic when some contributor shows the package annotated;
otherwise one diagnostic at the package location of the contributor with the
lexicographically smallest file identifier. -/
def pkgDiagFor (cs : List Contribution) (p : List String) : Option Diagnostic :=
  if packageAnnotatedIn cs p then none
  else
    match chosenContributor (pkgContributors cs p) with
    | none => none
    | some c => some (missingMetaDiag c.file c.packageLoc)

/-- The contributions that mention rule `r`. -/
def ruleContributors (cs : List Contribution) (r : String) : List Contribution :=
  cs.filter (fun c => c.ruleAnnotated.any (fun ab => decide (ab.1 = r)))

/-- Modelled from the spec: a rule is documented when any contribution for that
rule path shows it annotated. -/
def ruleAnnotatedIn (cs : List Contribution) (r : String) : Bool :=
  cs.any (fun c => c.ruleAnnotated.any (fun ab => decide (ab.1 = r) && ab.2))

/-- Modelled from the spec: the rule-level judgment of `recompute` for one rule
path.  No diagnostic when some contribution shows the rule annotated; otherwise
one diagnostic at the rule's own head location, taken from the contributor with
the lexicographically smallest file identifier. -/
def ruleDiagFor (cs : List Contribution) (r : String) : Option Diagnostic :=
  if ruleAnnotatedIn cs r then none
  else
    match chosenContributor (ruleContributors cs r) with
    | none => none
    | some c =>
      match c.ruleLocations.lookup r with
      | none => none
      | some l => some (missingMetaDiag c.file l)

/-- The distinct package paths present in the aggregate state. -/
def pkgKeys (cs : List Contribution) : List (List String) :=
  (cs.map (fun c => c.packagePath)).dedup

/-- The distinct rule paths present in the aggregate state. -/
def ruleKeys (cs : List Contribution) : List String :=
  (cs.flatMap (fun c => c.ruleAnnotated.map Prod.fst)).dedup

/-- Modelled from the spec: `recompute` for the missing-metadata category —
a pure reduction from the unioned contributions to the set of diagnostics,
one per undocumented package and one per undocumented rule. -/
def aggregate_report (cs : List Contribution) : Finset Diagnostic :=
  ((pkgKeys cs).filterMap (pkgDiagFor cs)).toFinset
    ∪ ((ruleKeys cs).filterMap (ruleDiagFor cs)).toFinset

/-- Modelled from the spec: the aggregation engine's record of contributions,
keyed by the contributing `FileIdentifier`. -/
structure AggState where
  contributions : List (String × Contribution)
deriving DecidableEq, Repr

/-- Modelled from the spec: the invalidation step of the aggregation engine —
`delete(id)` drops the contribution recorded for `id`. -/
def AggState.deleteId (s : AggState) (id : String) : AggState :=
  ⟨s.contributions.filter (fun pr => pr.1 != id)⟩

/-- Modelled from the spec: `recompute` evaluates the category's cross-file
rule over the union of all currently recorded contributions. -/
def AggState.recompute (s : AggState) : Finset Diagnostic :=
  aggregate_report (s.contributions.map Prod.snd)

/-- A concrete cache holding content and a parsed module for one URI, used to
exhibit intermediate states of `Delete`. -/
def exCache : Cache :=
  (NewCache.SetFileContents "file:///p.rego" "package p").SetModule "file:///p.rego" ⟨7⟩

/-- Concrete contribution: `a.rego` defines package `foo.bar` with a metadata
annotation and no rules. -/
def exAnnotated : Contribution :=
  { file := "a.rego"
    packagePath := ["foo", "bar"]
    packageAnnotated := true
    packageLoc := { row := 3, col := 1, text := "package" }
    ruleAnnotated := []
    ruleLocations := [] }

/-- Concrete contribution: `b.rego` defines package `foo.bar` without a
metadata annotation and no rules. -/
def exUnannotated : Contribution :=
  { file := "b.rego"
    packagePath := ["foo", "bar"]
    packageAnnotated := false
    packageLoc := { row := 1, col := 1, text := "package" }
    ruleAnnotated := []
    ruleLocations := [] }

/-- Concrete contribution replaying `test_fail_missing_rule_metadata_report`:
`p.rego` has an annotated package `foo.bar` and a rule `foo.bar.baz` with no
annotation, whose head sits at row 5, column 1 with text `baz := true`. -/
def exBaz : Contribution :=
  { file := "p.rego"
    packagePath := ["foo", "bar"]
    packageAnnotated := true
    packageLoc := { row := 3, col := 1, text := "package" }
    ruleAnnotated := [("foo.bar.baz", false)]
    ruleLocations := [("foo.bar.baz", { row := 5, col := 1, text := "baz := true" })] }

theorem mapGet_mapSet_self {α : Type} (k : String) (v : α) (m : List (String × α)) :
    mapGet k (mapSet k v m) = some v := by
  induction m with
  | nil => simp [mapGet, mapSet]
  | cons p rest ih =>
    obtain ⟨k₂, w⟩ := p
    by_cases h : k₂ = k
    · simp [mapGet, mapSet, h]
    · simp [mapGet, mapSet, h, ih]

theorem mapGet_mapDel_self {α : Type} (k : String) (m : List (String × α)) :
    mapGet k (mapDel k m) = none := by
  induction m with
  | nil => rfl
  | cons p rest ih =>
    obtain ⟨k₂, w⟩ := p
    by_cases h : k₂ = k
    · simpa [mapDel, List.filter_cons, h] using ih
    · simpa [mapDel, List.filter_cons, h, mapGet] using ih

theorem mapGet_eq_none_of_not_mem {α : Type} (k : String) (m : List (String × α))
    (h : k ∉ m.map Prod.fst) : mapGet k m = none := by
  induction m with
  | nil => rfl
  | cons p rest ih =>
    obtain ⟨k₂, w⟩ := p
    simp only [List.map_cons, List.mem_cons] at h
    push_neg at h
    have hne : ¬k₂ = k := fun e => h.1 e.symm
    simp [mapGet, hne, ih h.2]

theorem appendIfFound_eq_getD (acc : List Diagnostic) (o : Option (List Diagnostic)) :
    appendIfFound acc o = acc ++ o.getD [] := by
  cases o <;> simp [appendIfFound]

/-- C1: when the parse-failure entry for a URI exists and is non-empty,
`GetAllDiagnosticsForURI` returns exactly it, whatever the file-local and
aggregate maps hold; otherwise it returns the aggregate list (when present)
followed by the file-local list (when present). -/
theorem getAllDiagnosticsForURI_precedence (c : Cache) (uri : String) :
    (∀ pd, c.GetParseErrors uri = some pd → pd ≠ [] →
        c.GetAllDiagnosticsForURI uri = pd)
    ∧ ((c.GetParseErrors uri = none ∨ c.GetParseErrors uri = some []) →
        c.GetAllDiagnosticsForURI uri =
          (c.GetAggregateDiagnostics uri).getD [] ++ (c.GetFileDiagnostics uri).getD []) := by
  constructor
  · intro pd hpd hne
    unfold Cache.GetAllDiagnosticsForURI
    rw [hpd]
    simp [List.length_pos, hne]
  · intro h
    unfold Cache.GetAllDiagnosticsForURI
    rcases h with h | h <;> rw [h] <;> simp [appendIfFound_eq_getD]

/-- C1 witness: a concrete cache with a non-empty parse-failure entry and a
non-empty file-local entry for the same URI returns the parse failures alone. -/
theorem getAllDiagnosticsForURI_precedence_witness :
    ((NewCache.SetParseErrors "u" [missingMetaDiag "u" ⟨1, 1, "package"⟩]).SetFileDiagnostics
        "u" [missingMetaDiag "u" ⟨9, 9, "x"⟩]).GetAllDiagnosticsForURI "u"
      = [missingMetaDiag "u" ⟨1, 1, "package"⟩] :=
  (getAllDiagnosticsForURI_precedence
      ((NewCache.SetParseErrors "u" [missingMetaDiag "u" ⟨1, 1, "package"⟩]).SetFileDiagnostics
        "u" [missingMetaDiag "u" ⟨9, 9, "x"⟩]) "u").1
    [missingMetaDiag "u" ⟨1, 1, "package"⟩] (by decide) (by decide)

/-- C2: after `Delete(id)` every getter of every store returns not-found for
`id`, the aggregation engine's state no longer records any contribution keyed
by `id`, and `recompute` evaluates only the remaining contributions. -/
theorem delete_invalidates_all_stores (c : Cache) (uri : String) (s : AggState) :
    ((c.Delete uri).GetFileContents uri = none)
    ∧ ((c.Delete uri).GetModule uri = none)
    ∧ ((c.Delete uri).GetFileDiagnostics uri = none)
    ∧ ((c.Delete uri).GetAggregateDiagnostics uri = none)
    ∧ ((c.Delete uri).GetParseErrors uri = none)
    ∧ ((c.Delete uri).GetBuiltinPositions uri = none)
    ∧ ((s.deleteId uri).contributions.all (fun pr => pr.1 != uri) = true)
    ∧ ((s.deleteId uri).recompute
        = aggregate_report ((s.contributions.filter (fun pr => pr.1 != uri)).map Prod.snd)) := by
  refine ⟨?_, ?_, ?_, ?_, ?_, ?_, ?_, rfl⟩
  · exact mapGet_mapDel_self uri c.fileContents
  · exact mapGet_mapDel_self uri c.modules
  · exact mapGet_mapDel_self uri c.diagnosticsFile
  · exact mapGet_mapDel_self uri c.diagnosticsAggregate
  · exact mapGet_mapDel_self uri c.diagnosticsParseErrors
  · exact mapGet_mapDel_self uri c.builtinPositionsFile
  · simp only [AggState.deleteId, List.all_eq_true]
    intro pr hpr
    exact (List.mem_filter.mp hpr).2

theorem getFileContents_setFileContents (c : Cache) (uri t : String) :
    (c.SetFileContents uri t).GetFileContents uri = some t :=
  mapGet_mapSet_self uri t c.fileContents

/-- C4: reloading from disk with bytes identical to the cached content leaves
the whole cache unchanged and returns the cached value; differing bytes (or a
previously unseen URI) overwrite the content entry; the caller can read the
change signal off the return value — the resulting cache equals the input cache
exactly when the bytes read equal the cached content. -/
theorem updateCacheForURIFromDisk_spec (c : Cache) (uri s t : String) :
    (c.GetFileContents uri = some s →
        UpdateCacheForURIFromDisk c uri (Except.ok s) = (c, Except.ok s))
    ∧ (c.GetFileContents uri ≠ some t →
        UpdateCacheForURIFromDisk c uri (Except.ok t)
          = (c.SetFileContents uri t, Except.ok t))
    ∧ ((UpdateCacheForURIFromDisk c uri (Except.ok t)).1 = c ↔
        c.GetFileContents uri = some t) := by
  refine ⟨?_, ?_, ?_, ?_⟩
  · intro h
    unfold UpdateCacheForURIFromDisk
    rw [h]
    simp
  · intro h
    unfold UpdateCacheForURIFromDisk
    cases hg : c.GetFileContents uri with
    | none => simp
    | some s₂ =>
      have hne : ¬s₂ = t := fun e => h (e ▸ hg)
      simp [hne]
  · intro h₁
    cases hg : c.GetFileContents uri with
    | none =>
      exfalso
      have h₂ : (UpdateCacheForURIFromDisk c uri (Except.ok t)).1 = c.SetFileContents uri t := by
        unfold UpdateCacheForURIFromDisk
        rw [hg]
      rw [h₁] at h₂
      have := getFileContents_setFileContents c uri t
      rw [← h₂, hg] at this
      exact Option.noConfusion this
    | some s₂ =>
      by_cases he : s₂ = t
      · exact congrArg some he
      · exfalso
        have h₂ : (UpdateCacheForURIFromDisk c uri (Except.ok t)).1 = c.SetFileContents uri t := by
          unfold UpdateCacheForURIFromDisk
          rw [hg]
          simp [he]
        rw [h₁] at h₂
        have := getFileContents_setFileContents c uri t
        rw [← h₂, hg] at this
        exact he (Option.some.inj this)
  · intro h₂
    unfold UpdateCacheForURIFromDisk
    rw [h₂]
    simp

/-- C4 witness: with `"package p"` cached for the URI, a disk read returning
the same bytes is a no-op returning the cached value, and a disk read returning
different bytes overwrites the entry. -/
theorem updateCacheForURIFromDisk_spec_witness :
    (UpdateCacheForURIFromDisk (NewCache.SetFileContents "u" "package p") "u"
        (Except.ok "package p")
      = (NewCache.SetFileContents "u" "package p", Except.ok "package p"))
    ∧ (UpdateCacheForURIFromDisk (NewCache.SetFileContents "u" "package p") "u"
        (Except.ok "package q")
      = ((NewCache.SetFileContents "u" "package p").SetFileContents "u" "package q",
          Except.ok "package q")) :=
  ⟨(updateCacheForURIFromDisk_spec (NewCache.SetFileContents "u" "package p") "u"
      "package p" "package p").1 (by decide),
    (updateCacheForURIFromDisk_spec (NewCache.SetFileContents "u" "package p") "u"
      "package p" "package q").2.1 (by decide)⟩

/-- C7 counterexample: the claim that each of the three diagnostics sub-maps
has its own clear operation is false — `cache.go` defines clear operations only
for the file-local and aggregate maps; no clear exists for the parse-errors
map. -/
theorem clearParseErrors_not_defined : ¬ ("ClearParseErrors" ∈ cacheClearOperations) := by
  decide

/-- C7 amended: each of the three diagnostics sub-maps has its own get and set
operation; the file-local and aggregate maps additionally have a clear
operation, and invoking it resets that entire map to empty, so every
subsequent get on it returns not-found for every identifier.  The parse-errors
map has no clear operation. -/
theorem diagnostics_submap_operations (c : Cache) (uri : String) (ds : List Diagnostic) :
    ((c.SetFileDiagnostics uri ds).GetFileDiagnostics uri = some ds)
    ∧ ((c.SetAggregateDiagnostics uri ds).GetAggregateDiagnostics uri = some ds)
    ∧ ((c.SetParseErrors uri ds).GetParseErrors uri = some ds)
    ∧ (c.ClearFileDiagnostics.GetFileDiagnostics uri = none)
    ∧ (c.ClearAggregateDiagnostics.GetAggregateDiagnostics uri = none)
    ∧ (c.ClearFileDiagnostics.diagnosticsFile = [])
    ∧ (c.ClearAggregateDiagnostics.diagnosticsAggregate = []) :=
  ⟨mapGet_mapSet_self uri ds c.diagnosticsFile,
    mapGet_mapSet_self uri ds c.diagnosticsAggregate,
    mapGet_mapSet_self uri ds c.diagnosticsParseErrors,
    rfl, rfl, rfl, rfl⟩

/-- C8 counterexample: a reader interleaved after the first of the six per-map
critical sections of `Delete` observes a partially-deleted state — the file
contents entry is already gone while the module entry is still present. -/
theorem delete_partial_state_observable :
    ((exCache.deleteUpTo "file:///p.rego" 1).GetFileContents "file:///p.rego" = none)
    ∧ ((exCache.deleteUpTo "file:///p.rego" 1).GetModule "file:///p.rego" = some ⟨7⟩) := by
  constructor <;> decide

/-- C8 amended: `Delete` clears the six stores one map at a time, each under
its own lock (source order: contents, modules, file diagnostics, aggregate
diagnostics, parse errors, builtin positions); only the individual map
operations are atomic, so a concurrent reader may observe a prefix of the
deletions — after step one the contents entry is gone while the later maps are
untouched — and after all six steps the state equals `Delete`'s result. -/
theorem delete_stepwise_per_map (c : Cache) (uri : String) :
    (c.deleteUpTo uri 6 = c.Delete uri)
    ∧ (c.deleteUpTo uri 0 = c)
    ∧ ((c.deleteUpTo uri 1).GetFileContents uri = none)
    ∧ ((c.deleteUpTo uri 1).GetModule uri = c.GetModule uri)
    ∧ ((c.deleteUpTo uri 1).GetParseErrors uri = c.GetParseErrors uri) := by
  refine ⟨rfl, rfl, ?_, rfl, rfl⟩
  exact mapGet_mapDel_self uri c.fileContents

/-- C9: every getter distinguishes "analyzed, zero diagnostics" (`some []`)
from "not yet analyzed" (`none`): setting an identifier's diagnostics to the
empty list makes the getter return the empty list as found, while an
identifier absent from the map — in particular any identifier in a fresh
cache — returns not-found. -/
theorem getter_found_flag_distinguishes (c : Cache) (uri : String) :
    ((c.SetFileDiagnostics uri []).GetFileDiagnostics uri = some [])
    ∧ ((c.SetParseErrors uri []).GetParseErrors uri = some [])
    ∧ ((c.SetAggregateDiagnostics uri []).GetAggregateDiagnostics uri = some [])
    ∧ (NewCache.GetFileDiagnostics uri = none)
    ∧ (NewCache.GetParseErrors uri = none)
    ∧ (NewCache.GetAggregateDiagnostics uri = none)
    ∧ (uri ∉ c.diagnosticsFile.map Prod.fst → c.GetFileDiagnostics uri = none)
    ∧ (uri ∉ c.diagnosticsParseErrors.map Prod.fst → c.GetParseErrors uri = none) :=
  ⟨mapGet_mapSet_self uri [] c.diagnosticsFile,
    mapGet_mapSet_self uri [] c.diagnosticsParseErrors,
    mapGet_mapSet_self uri [] c.diagnosticsAggregate,
    rfl, rfl, rfl,
    mapGet_eq_none_of_not_mem uri c.diagnosticsFile,
    mapGet_eq_none_of_not_mem uri c.diagnosticsParseErrors⟩

/-- C9 witness: in a fresh cache the URI `"u"` was never written, so the
getters return not-found for it. -/
theorem getter_found_flag_distinguishes_witness :
    (NewCache.GetFileDiagnostics "u" = none) ∧ (NewCache.GetParseErrors "u" = none) :=
  ⟨(getter_found_flag_distinguishes NewCache "u").2.2.2.2.2.2.1 (by decide),
    (getter_found_flag_distinguishes NewCache "u").2.2.2.2.2.2.2 (by decide)⟩

/-- C10: for an identifier with no entry in any of the three diagnostics maps,
`GetAllDiagnosticsForURI` returns the empty list — the same value it returns
for an identifier whose three entries were all set to the empty list, so the
merged read exposes no found-flag and its caller cannot tell the two apart. -/
theorem getAllDiagnosticsForURI_default_empty (c : Cache) (uri : String) :
    (c.GetParseErrors uri = none → c.GetAggregateDiagnostics uri = none →
        c.GetFileDiagnostics uri = none → c.GetAllDiagnosticsForURI uri = [])
    ∧ (NewCache.GetAllDiagnosticsForURI uri = [])
    ∧ ((((NewCache.SetParseErrors uri []).SetAggregateDiagnostics uri
          []).SetFileDiagnostics uri []).GetAllDiagnosticsForURI uri
        = NewCache.GetAllDiagnosticsForURI uri) := by
  refine ⟨?_, rfl, ?_⟩
  · intro hp ha hf
    unfold Cache.GetAllDiagnosticsForURI
    rw [hp, ha, hf]
    rfl
  · unfold Cache.GetAllDiagnosticsForURI
    simp [Cache.SetParseErrors, Cache.SetAggregateDiagnostics, Cache.SetFileDiagnostics,
      Cache.GetParseErrors, Cache.GetAggregateDiagnostics, Cache.GetFileDiagnostics,
      NewCache, mapGet, mapSet, appendIfFound]

/-- C10 witness: the never-analyzed URI `"u"` in a fresh cache yields the
empty list. -/
theorem getAllDiagnosticsForURI_default_empty_witness :
    NewCache.GetAllDiagnosticsForURI "u" = [] :=
  (getAllDiagnosticsForURI_default_empty NewCache "u").1 rfl rfl rfl

theorem perm_any_eq {α : Type} {l₁ l₂ : List α} (h : l₁.Perm l₂) (p : α → Bool) :
    l₁.any p = l₂.any p := by
  induction h with
  | nil => rfl
  | cons a h ih => simp [List.any_cons, ih]
  | swap a b l => simp [List.any_cons, Bool.or_left_comm]
  | trans h₁ h₂ ih₁ ih₂ => exact ih₁.trans ih₂

theorem perm_minFileOf_eq {l₁ l₂ : List String} (h : l₁.Perm l₂) :
    minFileOf l₁ = minFileOf l₂ := by
  induction h with
  | nil => rfl
  | cons a h ih => simp [minFileOf, ih]
  | swap a b l =>
    cases hm : minFileOf l with
    | none => simp [minFileOf, hm, min_comm]
    | some g =>
      simp only [minFileOf, hm, Option.some.injEq]
      rw [min_left_comm]
  | trans h₁ h₂ ih₁ ih₂ => exact ih₁.trans ih₂

theorem perm_eq_of_length_le_one {α : Type} {l₁ l₂ : List α} (h : l₁.Perm l₂)
    (hl : l₁.length ≤ 1) : l₁ = l₂ := by
  cases l₁ with
  | nil => exact (List.Perm.eq_nil h.symm).symm
  | cons a t =>
    cases t with
    | nil => exact List.singleton_perm.mp h
    | cons b t₂ => simp at hl

theorem filter_by_file_subsingleton (cs : List Contribution) (f : String)
    (hnd : (cs.map (fun c => c.file)).Nodup) (q : Contribution → Bool)
    (hq : ∀ c, q c = true → c.file = f) :
    (cs.filter q).length ≤ 1 := by
  induction cs with
  | nil => simp
  | cons c rest ih =>
    simp only [List.map_cons, List.nodup_cons] at hnd
    by_cases hqc : q c = true
    · have hrest : rest.filter q = [] := by
        rw [List.filter_eq_nil_iff]
        intro d hd hqd
        exact hnd.1 (List.mem_map.mpr ⟨d, hd, (hq d hqd).trans (hq c hqc).symm⟩)
      simp [List.filter_cons, hqc, hrest]
    · rw [List.filter_cons, if_neg hqc]
      exact ih hnd.2

theorem chosenContributor_perm {l₁ l₂ : List Contribution} (h : l₁.Perm l₂)
    (hnd : (l₁.map (fun c => c.file)).Nodup) :
    chosenContributor l₁ = chosenContributor l₂ := by
  unfold chosenContributor
  rw [perm_minFileOf_eq (h.map _)]
  cases hm : minFileOf (l₂.map (fun c => c.file)) with
  | none => rfl
  | some f =>
    have heq : l₁.filter (fun c => decide (c.file = f))
        = l₂.filter (fun c => decide (c.file = f)) :=
      perm_eq_of_length_le_one (h.filter _)
        (filter_by_file_subsingleton l₁ f hnd _ (fun c hc => of_decide_eq_true hc))
    simp only [Option.some_bind]
    rw [heq]

theorem pkgDiagFor_perm {cs₁ cs₂ : List Contribution} (h : cs₁.Perm cs₂)
    (hnd : (cs₁.map (fun c => c.file)).Nodup) (p : List String) :
    pkgDiagFor cs₁ p = pkgDiagFor cs₂ p := by
  unfold pkgDiagFor
  rw [show packageAnnotatedIn cs₁ p = packageAnnotatedIn cs₂ p from perm_any_eq h _]
  have hsub : ((pkgContributors cs₁ p).map (fun c => c.file)).Nodup :=
    ((List.filter_sublist cs₁).map (fun c => c.file)).nodup hnd
  have hpc : (pkgContributors cs₁ p).Perm (pkgContributors cs₂ p) := h.filter _
  rw [chosenContributor_perm hpc hsub]

theorem ruleDiagFor_perm {cs₁ cs₂ : List Contribution} (h : cs₁.Perm cs₂)
    (hnd : (cs₁.map (fun c => c.file)).Nodup) (r : String) :
    ruleDiagFor cs₁ r = ruleDiagFor cs₂ r := by
  unfold ruleDiagFor
  rw [show ruleAnnotatedIn cs₁ r = ruleAnnotatedIn cs₂ r from perm_any_eq h _]
  have hsub : ((ruleContributors cs₁ r).map (fun c => c.file)).Nodup :=
    ((List.filter_sublist cs₁).map (fun c => c.file)).nodup hnd
  have hrc : (ruleContributors cs₁ r).Perm (ruleContributors cs₂ r) := h.filter _
  rw [chosenContributor_perm hrc hsub]

/-- C5: `recompute` is a pure, iteration-order-independent reduction — for a
fixed AggregateState (two enumerations of the same contributions, at most one
per file identifier), `aggregate_report` produces the identical diagnostic
set. -/
theorem recompute_deterministic (cs₁ cs₂ : List Contribution) (h : cs₁.Perm cs₂)
    (hnd : (cs₁.map (fun c => c.file)).Nodup) :
    aggregate_report cs₁ = aggregate_report cs₂ := by
  unfold aggregate_report
  have hpk : (pkgKeys cs₁).Perm (pkgKeys cs₂) := (h.map _).dedup
  have hrk : (ruleKeys cs₁).Perm (ruleKeys cs₂) := (h.flatMap_right _).dedup
  rw [List.filterMap_congr (fun p _ => pkgDiagFor_perm h hnd p),
    List.filterMap_congr (fun r _ => ruleDiagFor_perm h hnd r),
    List.toFinset_eq_of_perm _ _ (hpk.filterMap _),
    List.toFinset_eq_of_perm _ _ (hrk.filterMap _)]

/-- C5 witness: the two orderings of a concrete two-file AggregateState yield
the same diagnostic set. -/
theorem recompute_deterministic_witness :
    aggregate_report [exAnnotated, exBaz] = aggregate_report [exBaz, exAnnotated] :=
  recompute_deterministic [exAnnotated, exBaz] [exBaz, exAnnotated]
    (by decide) (by decide)

/-- C3: package-level annotation presence is unioned with OR across
contributors: when any contribution for package path `p` shows the package
annotated, the package-level judgment of `recompute` emits no missing-metadata
diagnostic for `p`, even when another contribution for the same path shows it
unannotated. -/
theorem recompute_package_annotated_or (cs : List Contribution) (p : List String)
    (h : ∃ c ∈ cs, c.packagePath = p ∧ c.packageAnnotated = true) :
    packageAnnotatedIn cs p = true ∧ pkgDiagFor cs p = none := by
  have ha : packageAnnotatedIn cs p = true := by
    rcases h with ⟨c, hc, hp, hann⟩
    simp only [packageAnnotatedIn, List.any_eq_true]
    exact ⟨c, hc, by simp [hp, hann]⟩
  refine ⟨ha, ?_⟩
  simp [pkgDiagFor, ha]

/-- C3 witness: files `a.rego` (annotated) and `b.rego` (not annotated) both
contribute package `foo.bar`; the package is judged documented, and with no
rules contributed `recompute` reports nothing at all. -/
theorem recompute_package_annotated_or_witness :
    (packageAnnotatedIn [exAnnotated, exUnannotated] ["foo", "bar"] = true
      ∧ pkgDiagFor [exAnnotated, exUnannotated] ["foo", "bar"] = none)
    ∧ aggregate_report [exAnnotated, exUnannotated] = ∅ :=
  ⟨recompute_package_annotated_or [exAnnotated, exUnannotated] ["foo", "bar"]
      ⟨exAnnotated, by decide, by decide, by decide⟩,
    by decide⟩

/-- C6: for a contribution whose package is annotated but whose rule `r` is
not, `recompute` emits exactly one diagnostic, attributed to the rule's own
head location, and none for the package — the rule is judged by its own
contribution independently of the package's annotation state. -/
theorem recompute_rule_own_head (c : Contribution) (r : String) (l : Loc)
    (hpa : c.packageAnnotated = true)
    (hra : c.ruleAnnotated = [(r, false)])
    (hrl : c.ruleLocations = [(r, l)]) :
    aggregate_report [c] = {missingMetaDiag c.file l}
      ∧ pkgDiagFor [c] c.packagePath = none := by
  have hann : packageAnnotatedIn [c] c.packagePath = true := by
    simp [packageAnnotatedIn, hpa]
  have hpd : pkgDiagFor [c] c.packagePath = none := by
    simp [pkgDiagFor, hann]
  refine ⟨?_, hpd⟩
  unfold aggregate_report
  have hpk : pkgKeys [c] = [c.packagePath] := by simp [pkgKeys]
  have hrk : ruleKeys [c] = [r] := by simp [ruleKeys, hra]
  rw [hpk, hrk]
  have hrd : ruleDiagFor [c] r = some (missingMetaDiag c.file l) := by
    have hna : ruleAnnotatedIn [c] r = false := by simp [ruleAnnotatedIn, hra]
    have hrc : ruleContributors [c] r = [c] := by simp [ruleContributors, hra]
    simp [ruleDiagFor, hna, hrc, chosenContributor, minFileOf, hrl, List.lookup]
  simp [List.filterMap, hpd, hrd]

/-- C6 witness: replaying `test_fail_missing_rule_metadata_report` — `p.rego`
has annotated package `foo.bar` and unannotated rule `foo.bar.baz`; the single
diagnostic sits at row 5, column 1 with text `baz := true`, and the package
itself produces none. -/
theorem recompute_rule_own_head_witness :
    aggregate_report [exBaz]
      = {missingMetaDiag "p.rego" { row := 5, col := 1, text := "baz := true" }}
    ∧ pkgDiagFor [exBaz] ["foo", "bar"] = none :=
  recompute_rule_own_head exBaz "foo.bar.baz"
    { row := 5, col := 1, text := "baz := true" } rfl rfl rfl
